import Mathlib

/-!
Shallow embedding of the typed conditional-API layer of the libovsdb client:
the schema-aware mapper (`mapper/info.go`), the condition factories
(`client/condition.go`) and the wire `Mutation` JSON codec (`ovsdb` package
file concatenated into `client/condition.go`).  Go reflection values are
modelled by an explicit value universe of the OVSDB native types; machine
state that Go mutates in place is passed explicitly.
-/

set_option autoImplicit false

namespace LibOVSDB

/-- Atomic OVSDB native types as they appear on tagged struct fields. -/
inductive AtomicType where
  | str
  | int
  | bool
  | uuid
  deriving DecidableEq, Repr

/-- Go native types of column values: scalars, sets (Go slices) and maps.
OVSDB sets and maps contain atomic elements only. -/
inductive GoType where
  | atom (t : AtomicType)
  | slice (t : AtomicType)
  | map (k v : AtomicType)
  deriving DecidableEq, Repr

/-- Atomic runtime values. -/
inductive Atomic where
  | str (s : String)
  | int (n : Int)
  | bool (b : Bool)
  | uuid (u : String)
  deriving DecidableEq, Repr

/-- Runtime values held in struct fields and carried in wire conditions. -/
inductive Value where
  | atom (a : Atomic)
  | set (l : List Atomic)
  | vmap (l : List (Atomic × Atomic))
  deriving DecidableEq, Repr

/-- The zero value of each Go native type: empty string, zero number,
false, the all-zero UUID, the empty collection. -/
def GoType.zeroValue : GoType → Value
  | .atom .str => .atom (.str "")
  | .atom .int => .atom (.int 0)
  | .atom .bool => .atom (.bool false)
  | .atom .uuid => .atom (.uuid "00000000-0000-0000-0000-000000000000")
  | .slice _ => .set []
  | .map _ _ => .vmap []

/-- A column schema: the declared native type and whether the column is a
set of maximum cardinality one. -/
structure ColumnSchema where
  nativeType : GoType
  maxOne : Bool
  deriving DecidableEq, Repr

/-- Association-list lookup with propositional key comparison, modelling a
Go map read (first match; maps built by `alistInsert` have unique keys). -/
def lookupA {β : Type} : List (String × β) → String → Option β
  | [], _ => none
  | p :: rest, k => if p.1 = k then some p.2 else lookupA rest k

/-- Association-list write modelling a Go map assignment: an existing key
is overwritten in place, a fresh key is appended. -/
def alistInsert {β : Type} : List (String × β) → String → β → List (String × β)
  | [], k, v => [(k, v)]
  | p :: rest, k, v => if p.1 = k then (k, v) :: rest else p :: alistInsert rest k v

/-- A table schema: columns by name and the list of schema indexes. -/
structure TableSchema where
  columns : List (String × ColumnSchema)
  indexes : List (List String)
  deriving DecidableEq, Repr

/-- Column lookup on a table schema (`TableSchema.Column` in Go). -/
def TableSchema.Column (t : TableSchema) (name : String) : Option ColumnSchema :=
  lookupA t.columns name

/-- Modelled from the spec: `ovsdb.NativeType` is not under src; per the
spec it returns the native type the schema declares for the column, which
the modelled `ColumnSchema` carries directly. -/
def NativeType (cs : ColumnSchema) : GoType :=
  cs.nativeType

/-- Modelled from the spec: `ovsdb.IsDefaultValue` is not under src; per
the spec a value is default iff it equals the zero value of the declared
native type of the column. -/
def IsDefaultValue (cs : ColumnSchema) (v : Value) : Bool :=
  v == GoType.zeroValue (NativeType cs)

/-- Modelled from the spec: protocol encoding of a field value; a set
column with maximum cardinality one and exactly one element encodes as the
bare element, other values keep their representation. -/
def encodeColumn (cs : ColumnSchema) (v : Value) : Value :=
  match v with
  | .set [e] => if cs.maxOne then .atom e else .set [e]
  | x => x

/-- A Go struct field: name, `ovs` tag and static type. -/
structure StructField where
  name : String
  tag : String
  type : GoType
  deriving DecidableEq, Repr

/-- A reflected struct value: its fields in declaration order, each with
its current value. -/
def Obj : Type := List (StructField × Value)

instance : DecidableEq Obj := by
  unfold Obj
  infer_instance

instance : Repr Obj :=
  inferInstanceAs (Repr (List (StructField × Value)))

/-- Reflection `FieldByName`: first field with the given name, or `none`
for the invalid `reflect.Value`. -/
def lookupField : Obj → String → Option (StructField × Value)
  | [], _ => none
  | p :: rest, fname => if p.1.name = fname then some p else lookupField rest fname

/-- Writing a field by name, modelling `reflect.Value.Set` on the field. -/
def setFieldVal : Obj → String → Value → Obj
  | [], _, _ => []
  | p :: rest, fname, v =>
    if p.1.name = fname then (p.1, v) :: rest else p :: setFieldVal rest fname v

/-- Mapper construction errors, from `mapper/info.go` (`ErrMapper` and
`ovsdb.NewErrWrongType`). -/
inductive MapperErr where
  | wrongType (fn expected : String)
  | columnNotExist (field tag : String)
  | columnWrongType (field tag : String)
  deriving DecidableEq, Repr

/-- `MapperInfo` from `mapper/info.go`: the column-to-field-name map, the
object reference and the owning table schema. -/
structure MapperInfo where
  fields : List (String × String)
  obj : Obj
  table : TableSchema
  deriving DecidableEq, Repr

/-- `MapperInfo.FieldByColumn` from `mapper/info.go`: resolve the column to
its field name, then read that field of the object; a missing struct field
gives the invalid reflect value, modelled as `none`. -/
def MapperInfo.FieldByColumn (mi : MapperInfo) (column : String) :
    Except String (Option Value) :=
  match lookupA mi.fields column with
  | none => .error ("column " ++ column ++ " not found in orm info")
  | some fname => .ok ((lookupField mi.obj fname).map (fun p => p.2))

/-- `MapperInfo.hasColumn` from `mapper/info.go`. -/
def MapperInfo.hasColumn (mi : MapperInfo) (column : String) : Bool :=
  (lookupA mi.fields column).isSome

/-- `MapperInfo.SetField` from `mapper/info.go`.  The Go method mutates the
object in place and returns an error; the model returns the resulting
object together with the optional error.  The source checks
`fieldValue.Type().AssignableTo(reflect.TypeOf(value))`; within the
modelled universe of OVSDB native types Go assignability coincides with
type identity, so the check is type equality of the field type with the
dynamic type of the incoming value. -/
def MapperInfo.SetField (mi : MapperInfo) (column : String) (vty : GoType)
    (value : Value) : Obj × Option String :=
  match lookupA mi.fields column with
  | none => (mi.obj, some ("column " ++ column ++ " not found in orm info"))
  | some fname =>
    match lookupField mi.obj fname with
    | none => (mi.obj, some "call of reflect.Value.Type on zero Value")
    | some f =>
      if f.1.type = vty then (setFieldVal mi.obj fname value, none)
      else (mi.obj, some ("column " ++ column ++
        ": native value is not assignable to field " ++ fname))

/-- One pass of the inner loop of `getValidIndexes`: decides whether every
column of the index passes the checks, with `continue OUTER` modelled as
returning `false` and the `FieldByColumn` error path preserved. -/
def MapperInfo.checkIndexCols (mi : MapperInfo) : List String → Except String Bool
  | [] => .ok true
  | col :: rest =>
    if mi.hasColumn col = false then .ok false
    else
      match mi.table.Column col with
      | none => .ok false
      | some cs =>
        match mi.FieldByColumn col with
        | .error e => .error e
        | .ok none => .ok false
        | .ok (some v) =>
          if IsDefaultValue cs v then .ok false else mi.checkIndexCols rest

/-- The outer loop of `getValidIndexes`, appending each validated index in
candidate order. -/
def MapperInfo.getValidIndexesAux (mi : MapperInfo) :
    List (List String) → Except String (List (List String))
  | [] => .ok []
  | idx :: rest =>
    match mi.checkIndexCols idx with
    | .error e => .error e
    | .ok b =>
      match mi.getValidIndexesAux rest with
      | .error e => .error e
      | .ok tail => .ok (if b then idx :: tail else tail)

/-- `MapperInfo.getValidIndexes` from `mapper/info.go`: candidates are
`[_uuid]` followed by the schema indexes. -/
def MapperInfo.getValidIndexes (mi : MapperInfo) :
    Except String (List (List String)) :=
  mi.getValidIndexesAux (["_uuid"] :: mi.table.indexes)

/-- The shape of the argument `NewMapperInfo` receives, as Go reflection
classifies it: a pointer to a struct, a pointer to anything else, or a
non-pointer value.  The two rejected shapes carry an arbitrary payload to
show the result does not depend on it. -/
inductive ObjArg where
  | ptrToStruct (o : Obj)
  | ptrToNonStruct (v : Value)
  | nonPtr (v : Value)

/-- The loop body of `NewMapperInfo`: walk the struct fields in order,
skip untagged fields, fail on a tag whose column is absent from the schema
or whose declared native type disagrees with the field type, and otherwise
record `fields[tag] = name` with Go map overwrite semantics. -/
def buildFields (tbl : TableSchema) :
    List StructField → List (String × String) →
    Except MapperErr (List (String × String))
  | [], acc => .ok acc
  | f :: rest, acc =>
    if f.tag = "" then buildFields tbl rest acc
    else
      match tbl.Column f.tag with
      | none => .error (.columnNotExist f.name f.tag)
      | some column =>
        if NativeType column = f.type then
          buildFields tbl rest (alistInsert acc f.tag f.name)
        else .error (.columnWrongType f.name f.tag)

/-- The struct branch of `NewMapperInfo`: build the column-to-field map
from the tagged fields and wrap it with the object and the schema. -/
def newMapperInfoStruct (table : TableSchema) (o : Obj) :
    Except MapperErr MapperInfo :=
  match buildFields table (o.map (fun p => p.1)) [] with
  | .error e => .error e
  | .ok fields => .ok { fields := fields, obj := o, table := table }

/-- `NewMapperInfo` from `mapper/info.go`. -/
def NewMapperInfo (table : TableSchema) (obj : ObjArg) :
    Except MapperErr MapperInfo :=
  match obj with
  | .nonPtr _ => .error (.wrongType "NewMapperInfo" "pminter to a struct")
  | .ptrToNonStruct _ => .error (.wrongType "NewMapperInfo" "pminter to a struct")
  | .ptrToStruct o => newMapperInfoStruct table o

/-- Wire condition functions (`ovsdb.ConditionFunction`). -/
inductive ConditionFunction where
  | eq
  | ne
  | includes
  | excludes
  | lt
  | le
  | gt
  | ge
  deriving DecidableEq, Repr

/-- A wire condition `(column, function, value)`. -/
structure Condition where
  column : String
  function : ConditionFunction
  value : Value
  deriving DecidableEq, Repr

/-- Sequential error-propagating map, modelling a Go loop that returns on
the first error and otherwise appends one output per input. -/
def exceptMapList {α β : Type} (f : α → Except String β) :
    List α → Except String (List β)
  | [] => .ok []
  | a :: rest =>
    match f a with
    | .error e => .error e
    | .ok b =>
      match exceptMapList f rest with
      | .error e => .error e
      | .ok bs => .ok (b :: bs)

/-- Modelled from the spec: the `orm` object is not under src; per the
spec it carries the downloaded database schema, keyed by table name. -/
structure Orm where
  schema : List (String × TableSchema)
  deriving DecidableEq, Repr

/-- Modelled from the spec: `orm.newCondition` is not under src.  Per the
spec it builds the mapper for the model, selects the caller-supplied field
group or, when none is given, the first entry of the valid-index list,
failing with `no index matches the provided model` when that list is
empty, and emits one equality Condition per selected column using the
protocol encoding of the model value.  Field references are modelled as
the column names they resolve to. -/
def Orm.newCondition (orm : Orm) (tableName : String) (model : Obj)
    (fields : List String) : Except String (List Condition) :=
  match lookupA orm.schema tableName with
  | none => .error ("table " ++ tableName ++ " not found in schema")
  | some tbl =>
    match NewMapperInfo tbl (.ptrToStruct model) with
    | .error _ => .error "mapper error"
    | .ok mi =>
      let idxE : Except String (List String) :=
        if fields.isEmpty then
          match mi.getValidIndexes with
          | .error e => .error e
          | .ok [] => .error "no index matches the provided model"
          | .ok (idx :: _) => .ok idx
        else .ok fields
      match idxE with
      | .error e => .error e
      | .ok idx =>
        exceptMapList (fun col =>
          match tbl.Column col with
          | none => .error ("column " ++ col ++ " not found in schema")
          | some cs =>
            match mi.FieldByColumn col with
            | .error e => .error e
            | .ok none => .error ("invalid field for column " ++ col)
            | .ok (some v) =>
              .ok { column := col, function := ConditionFunction.eq,
                    value := encodeColumn cs v }) idx

/-- `indexCondFactory` from `client/condition.go`. -/
structure IndexCondFactory where
  orm : Orm
  tableName : String
  model : Obj
  fields : List String

/-- `indexCondFactory.Table` from `client/condition.go`. -/
def IndexCondFactory.Table (c : IndexCondFactory) : String :=
  c.tableName

/-- `indexCondFactory.Generate` from `client/condition.go`: delegates to
`orm.newCondition` on the stored model and field references. -/
def IndexCondFactory.Generate (c : IndexCondFactory) :
    Except String (List Condition) :=
  c.orm.newCondition c.tableName c.model c.fields

/-- `newIndexCondition` from `client/condition.go`: packs the arguments
into the factory and never fails. -/
def newIndexCondition (orm : Orm) (table : String) (model : Obj)
    (fields : List String) : Except String IndexCondFactory :=
  .ok { orm := orm, tableName := table, model := model, fields := fields }

/-- A row cache of one table: row values keyed by UUID, in scan order. -/
structure RowCache where
  rows : List (String × Obj)

/-- The table cache handed to predicate factories: per-table row caches
plus the mapper/orm built at schema load. -/
structure TableCache where
  cache : List (String × RowCache)
  orm : Orm

/-- `TableCache.Table`: the row cache of a table, or `none` when the
table is unknown to the cache. -/
def TableCache.Table (tc : TableCache) (name : String) : Option RowCache :=
  lookupA tc.cache name

/-- `ErrNotFound` of the client package (declared outside src). -/
def errNotFound : String := "object not found"

/-- `predicateCondFactory` from `client/condition.go`. -/
structure PredicateCondFactory where
  tableName : String
  predicate : Obj → Bool
  cache : TableCache

/-- `predicateCondFactory.Matches` from `client/condition.go`: calls the
predicate via reflection and always returns a nil error. -/
def PredicateCondFactory.Matches (c : PredicateCondFactory) (model : Obj) :
    Bool × Option String :=
  (c.predicate model, none)

/-- `predicateCondFactory.Table` from `client/condition.go`. -/
def PredicateCondFactory.Table (c : PredicateCondFactory) : String :=
  c.tableName

/-- The row loop of `predicateCondFactory.Generate`: appends the
conditions of every matching row in scan order. -/
def predicateGenLoop (c : PredicateCondFactory) :
    List (String × Obj) → Except String (List Condition)
  | [] => .ok []
  | (_, elem) :: rest =>
    match (c.Matches elem).2 with
    | some e => .error e
    | none =>
      if (c.Matches elem).1 then
        match c.cache.orm.newCondition c.tableName elem [] with
        | .error e => .error e
        | .ok elemCond =>
          match predicateGenLoop c rest with
          | .error e => .error e
          | .ok tail => .ok (elemCond ++ tail)
      else predicateGenLoop c rest

/-- `predicateCondFactory.Generate` from `client/condition.go`: not-found
when the cache has no entry for the table, otherwise the loop over the
cached rows. -/
def PredicateCondFactory.Generate (c : PredicateCondFactory) :
    Except String (List Condition) :=
  match c.cache.Table c.tableName with
  | none => .error errNotFound
  | some tableCache => predicateGenLoop c tableCache.rows

/-- `newPredicateCondFactory` from `client/condition.go`. -/
def newPredicateCondFactory (table : String) (cache : TableCache)
    (predicate : Obj → Bool) : Except String PredicateCondFactory :=
  .ok { tableName := table, predicate := predicate, cache := cache }

/-- `errorConditionFactory` from `client/condition.go`. -/
structure ErrorConditionFactory where
  err : String

/-- `errorConditionFactory.Matches` from `client/condition.go`. -/
def ErrorConditionFactory.Matches (e : ErrorConditionFactory) (_ : Obj) :
    Bool × Option String :=
  (false, some e.err)

/-- `errorConditionFactory.Table` from `client/condition.go`. -/
def ErrorConditionFactory.Table (_ : ErrorConditionFactory) : String :=
  ""

/-- `errorConditionFactory.Generate` from `client/condition.go`. -/
def ErrorConditionFactory.Generate (e : ErrorConditionFactory) :
    Except String (List Condition) :=
  .error e.err

/-- `newErrorConditionFactory` from `client/condition.go`: wraps the
message at construction; the wrapped message is what the factory stores. -/
def newErrorConditionFactory (err : String) : ErrorConditionFactory :=
  { err := "conditionerror: " ++ err }

/-- One caller-supplied explicit condition: a field reference (modelled by
the field name the pointer resolves to), the condition function, and the
value with its dynamic type. -/
structure CondArg where
  field : String
  function : ConditionFunction
  vty : GoType
  value : Value
  deriving DecidableEq, Repr

/-- Modelled from the spec: resolution of one explicit condition by the
explicit condition factory (its implementation is not under src, only its
tests are).  The field reference resolves to its column through the
mapper, the value is validated against the declared native type of the
column and encoded to protocol form. -/
def resolveCond (mi : MapperInfo) (a : CondArg) : Except String Condition :=
  match lookupField mi.obj a.field with
  | none => .error ("field " ++ a.field ++ " does not correspond to orm struct")
  | some p =>
    match lookupA mi.fields p.1.tag with
    | none => .error "field does not have orm column information"
    | some _ =>
      match mi.table.Column p.1.tag with
      | none => .error ("column " ++ p.1.tag ++ " not found in schema")
      | some cs =>
        if NativeType cs = a.vty then
          .ok { column := p.1.tag, function := a.function,
                value := encodeColumn cs a.value }
        else .error ("condition value is not of column type for " ++ p.1.tag)

/-- Modelled from the spec: the explicit condition factory (not under src)
stores the table and the encoded conditions in caller order. -/
structure ExplicitCondFactory where
  tableName : String
  conditions : List Condition

/-- Modelled from the spec: `Matches` on an explicit factory always fails
with `explicit conditions cannot be evaluated locally`. -/
def ExplicitCondFactory.Matches (_ : ExplicitCondFactory) (_ : Obj) :
    Bool × Option String :=
  (false, some "explicit conditions cannot be evaluated locally")

/-- Modelled from the spec: `Table` of the explicit factory. -/
def ExplicitCondFactory.Table (f : ExplicitCondFactory) : String :=
  f.tableName

/-- Modelled from the spec: `Generate` returns the encoded conditions,
preserving the caller-supplied order. -/
def ExplicitCondFactory.Generate (f : ExplicitCondFactory) :
    Except String (List Condition) :=
  .ok f.conditions

/-- Modelled from the spec: construction of the explicit factory encodes
each caller condition in order, surfacing the first resolution error. -/
def newExplicitConditionFactory (mi : MapperInfo) (table : String)
    (args : List CondArg) : Except String ExplicitCondFactory :=
  match exceptMapList (resolveCond mi) args with
  | .error e => .error e
  | .ok cs => .ok { tableName := table, conditions := cs }

/-- A generic JSON value, the image of Go `interface\x7b\x7d` under
`encoding/json`. -/
inductive Json where
  | str (s : String)
  | num (n : Int)
  | jbool (b : Bool)
  | null
  | arr (elems : List Json)

/-- `Mutation` from the `ovsdb` package file: column, mutator (a string
type) and the value, generic after JSON decoding. -/
structure Mutation where
  column : String
  mutator : String
  value : Json

/-- `Mutation.MarshalJSON`: a mutation marshals to the 3 element array
`[column, mutator, value]`. -/
def Mutation.marshalJSON (m : Mutation) : Json :=
  .arr [.str m.column, .str m.mutator, m.value]

/-- The six mutators whose `switch` cases in the source have empty bodies;
Go `switch` does not fall through, so for these the assignment
`m.Mutator = mutator` in the `"%="` case body is never reached. -/
def emptyCaseMutators : List String :=
  ["delete", "insert", "+=", "-=", "*=", "/="]

/-- `Mutation.UnmarshalJSON` from the `ovsdb` package file.  The Go method
has a value receiver, so it operates on a copy of the receiver `m`; the
model returns the final state of that copy.  It rejects arrays whose
length is not 3, non-string columns or mutators and unrecognised
mutators; the mutator field of the copy is assigned only in the `"%="`
case, the other recognised mutators leave it at the receiver value
because their case bodies are empty. -/
def Mutation.unmarshalJSON (m : Mutation) (b : Json) : Except String Mutation :=
  match b with
  | .arr [j0, j1, j2] =>
    match j0 with
    | .str col =>
      match j1 with
      | .str mutStr =>
        if emptyCaseMutators.contains mutStr then
          .ok { column := col, mutator := m.mutator, value := j2 }
        else if mutStr = "%=" then
          .ok { column := col, mutator := mutStr, value := j2 }
        else .error (mutStr ++ " is not a valid mutator")
      | _ => .error "expected mutator to be a valid string"
    | _ => .error "expected column name to be a valid string"
  | .arr elems =>
    .error ("expected a 3 element json array. there are " ++
      toString elems.length ++ " elements")
  | _ => .error "json: cannot unmarshal value into Go value of type []interface"

/-- Whether an `Except` computation succeeded. -/
def isOkE {ε α : Type} : Except ε α → Bool
  | .ok _ => true
  | .error _ => false

/-- A column of the mapped object is populated when it resolves to an
existing schema column and to a valid field holding a non-default value;
this is the per-column check `getValidIndexes` performs on each index. -/
def MapperInfo.colPopulated (mi : MapperInfo) (col : String) : Bool :=
  match lookupA mi.fields col with
  | none => false
  | some fname =>
    match mi.table.Column col with
    | none => false
    | some cs =>
      match lookupField mi.obj fname with
      | none => false
      | some p => !(IsDefaultValue cs p.2)

/-- The single `_uuid` equality condition `orm.newCondition` emits for a
cached row whose `_uuid` column is populated: `none` when the row is not
in that shape. -/
def rowUUIDCond (orm : Orm) (tableName : String) (r : Obj) : Option Condition :=
  match lookupA orm.schema tableName with
  | none => none
  | some tbl =>
    match tbl.Column "_uuid" with
    | none => none
    | some cs =>
      match NewMapperInfo tbl (.ptrToStruct r) with
      | .error _ => none
      | .ok mi =>
        match mi.FieldByColumn "_uuid" with
        | .ok (some v) =>
          if IsDefaultValue cs v then none
          else some { column := "_uuid", function := ConditionFunction.eq,
                      value := encodeColumn cs v }
        | _ => none

/-- Concrete table schema used to evaluate the theorems: a `_uuid` column,
a `name` column and one schema index on `name`. -/
def wSchema : TableSchema :=
  { columns := [("_uuid", { nativeType := .atom .uuid, maxOne := false }),
                ("name", { nativeType := .atom .str, maxOne := false })],
    indexes := [["name"]] }

/-- Concrete orm over `wSchema` for the table `LSP`. -/
def wOrm : Orm :=
  { schema := [("LSP", wSchema)] }

/-- A concrete row of `wSchema` with the given uuid and name. -/
def wRow (u n : String) : Obj :=
  [({ name := "UUID", tag := "_uuid", type := .atom .uuid }, .atom (.uuid u)),
   ({ name := "Name", tag := "name", type := .atom .str }, .atom (.str n))]

/-- A concrete two-row cache for the table `LSP`. -/
def wRC : RowCache :=
  { rows := [("u0", wRow "u0" "a"), ("u1", wRow "u1" "b")] }

/-- A concrete table cache holding `wRC` under `LSP`. -/
def wCache : TableCache :=
  { cache := [("LSP", wRC)], orm := wOrm }

/-- A concrete predicate: the row's `Name` field is the string `a`. -/
def wPred (o : Obj) : Bool :=
  (lookupField o "Name").map (fun p => p.2) == some (.atom (.str "a"))

/-- A concrete predicate condition factory over `wCache`. -/
def wFactory : PredicateCondFactory :=
  { tableName := "LSP", predicate := wPred, cache := wCache }

/-- The mapper info `NewMapperInfo` computes for `wRow`. -/
def wMI : MapperInfo :=
  { fields := [("_uuid", "UUID"), ("name", "Name")],
    obj := wRow "u0" "a", table := wSchema }

/-- A concrete model all of whose columns hold their default value, so
that its valid-index list is empty. -/
def exModel : Obj :=
  [({ name := "UUID", tag := "_uuid", type := .atom .uuid },
    GoType.zeroValue (.atom .uuid)),
   ({ name := "Name", tag := "name", type := .atom .str }, .atom (.str ""))]

/-- The mapper info `NewMapperInfo` computes for `exModel` over `wSchema`. -/
def exMI : MapperInfo :=
  { fields := [("_uuid", "UUID"), ("name", "Name")],
    obj := exModel, table := wSchema }

/-- Concrete orm used for the index-factory theorems, table name `T`. -/
def exOrm : Orm :=
  { schema := [("T", wSchema)] }

theorem lookupA_mem {β : Type} (l : List (String × β)) (k : String) (v : β)
    (h : lookupA l k = some v) : (k, v) ∈ l := by
  induction l with
  | nil => simp [lookupA] at h
  | cons p rest ih =>
    rw [lookupA] at h
    by_cases hpk : p.1 = k
    · rw [if_pos hpk] at h
      obtain ⟨a, b⟩ := p
      simp only [Option.some.injEq] at h
      simp only at hpk
      subst hpk
      subst h
      exact List.mem_cons_self _ _
    · rw [if_neg hpk] at h
      exact List.mem_cons_of_mem _ (ih h)

theorem alistInsert_mem {β : Type} (l : List (String × β)) (k : String) (v : β)
    (pr : String × β) (h : pr ∈ alistInsert l k v) : pr = (k, v) ∨ pr ∈ l := by
  induction l with
  | nil =>
    simp [alistInsert] at h
    exact Or.inl h
  | cons p rest ih =>
    rw [alistInsert] at h
    by_cases hpk : p.1 = k
    · rw [if_pos hpk] at h
      rcases List.mem_cons.mp h with h1 | h1
      · exact Or.inl h1
      · exact Or.inr (List.mem_cons_of_mem _ h1)
    · rw [if_neg hpk] at h
      rcases List.mem_cons.mp h with h1 | h1
      · exact Or.inr (h1 ▸ List.mem_cons_self _ _)
      · rcases ih h1 with h2 | h2
        · exact Or.inl h2
        · exact Or.inr (List.mem_cons_of_mem _ h2)

theorem checkIndexCols_eq (mi : MapperInfo) (idx : List String) :
    mi.checkIndexCols idx = .ok (idx.all (fun col => mi.colPopulated col)) := by
  induction idx with
  | nil => rfl
  | cons col rest ih =>
    rw [MapperInfo.checkIndexCols]
    cases hl : lookupA mi.fields col with
    | none =>
      have hc : mi.hasColumn col = false := by
        simp [MapperInfo.hasColumn, hl]
      simp [hc, MapperInfo.colPopulated, hl]
    | some fname =>
      have hc : mi.hasColumn col = true := by
        simp [MapperInfo.hasColumn, hl]
      rw [if_neg (by simp [hc])]
      cases h2 : mi.table.Column col with
      | none => simp [MapperInfo.colPopulated, hl, h2]
      | some cs =>
        have hf : mi.FieldByColumn col =
            .ok ((lookupField mi.obj fname).map (fun p => p.2)) := by
          simp [MapperInfo.FieldByColumn, hl]
        cases h3 : lookupField mi.obj fname with
        | none => simp [hf, h3, MapperInfo.colPopulated, hl, h2]
        | some p =>
          by_cases hd : IsDefaultValue cs p.2
          · simp [hf, h3, hd, MapperInfo.colPopulated, hl, h2]
          · simp [hf, h3, hd, MapperInfo.colPopulated, hl, h2, ih]

theorem getValidIndexesAux_eq (mi : MapperInfo) (cands : List (List String)) :
    mi.getValidIndexesAux cands =
      .ok (cands.filter (fun idx => idx.all (fun col => mi.colPopulated col))) := by
  induction cands with
  | nil => rfl
  | cons idx rest ih =>
    rw [MapperInfo.getValidIndexesAux, checkIndexCols_eq, ih]
    by_cases h : idx.all (fun col => mi.colPopulated col) <;>
      simp [h, List.filter_cons]

/-- Claim C2: `getValidIndexes` never fails and returns exactly those
candidate indexes, taken from `[_uuid]` followed by the schema indexes in
that order, for which every column maps to a field of the row holding a
non-default value; the result preserves the candidate order (it is an
order-preserving filter of the candidate list). -/
theorem getValidIndexes_filters_candidates (mi : MapperInfo) :
    mi.getValidIndexes =
      .ok ((["_uuid"] :: mi.table.indexes).filter
        (fun idx => idx.all (fun col => mi.colPopulated col))) :=
  getValidIndexesAux_eq mi _

/-- Claim C4: an error condition factory surfaces its captured error
unchanged on every `Matches` and `Generate` call, and `Matches`
additionally returns `false`. -/
theorem errorConditionFactory_propagates (e : String) (m : Obj) :
    (ErrorConditionFactory.mk e).Matches m = (false, some e) ∧
    (ErrorConditionFactory.mk e).Generate = .error e :=
  ⟨rfl, rfl⟩

/-- Claim C10: `Table` of an error condition factory is always the empty
string, regardless of the captured error, both on the raw factory and on
one built by `newErrorConditionFactory`. -/
theorem errorConditionFactory_table_empty (e : String) :
    (ErrorConditionFactory.mk e).Table = "" ∧
    (newErrorConditionFactory e).Table = "" :=
  ⟨rfl, rfl⟩

/-- Claim C9: `NewMapperInfo` rejects every argument that is not a pointer
to a struct with the wrong-type error, independently of the payload value,
and without inspecting any field of it. -/
theorem newMapperInfo_requires_ptr_to_struct (tbl : TableSchema) (v : Value) :
    NewMapperInfo tbl (.nonPtr v) =
      .error (.wrongType "NewMapperInfo" "pminter to a struct") ∧
    NewMapperInfo tbl (.ptrToNonStruct v) =
      .error (.wrongType "NewMapperInfo" "pminter to a struct") :=
  ⟨rfl, rfl⟩

/-- The concrete mutation used to exhibit the `UnmarshalJSON` defect. -/
def c8Input : Mutation :=
  { column := "flags", mutator := "delete", value := .str "x" }

/-- A zero-valued receiver, as `encoding/json` would allocate it. -/
def c8Receiver : Mutation :=
  { column := "", mutator := "", value := .null }

/-- Claim C8 (code bug exhibited): round-tripping the mutation
`(flags, delete, "x")` through `MarshalJSON` and `UnmarshalJSON` yields a
mutation whose mutator is the empty string instead of `delete`, because
only the `"%="` case of the source `switch` assigns `m.Mutator`. -/
theorem mutation_roundtrip_loses_mutator :
    (c8Receiver.unmarshalJSON c8Input.marshalJSON).toOption.map Mutation.mutator =
      some "" ∧
    c8Input.mutator = "delete" :=
  ⟨rfl, rfl⟩

/-- Claim C3 counterexample: with every column of `exModel` at its default
value the valid-index list is empty, yet `newIndexCondition` with no field
references succeeds instead of failing. -/
theorem newIndexCondition_succeeds_without_index :
    (NewMapperInfo wSchema (.ptrToStruct exModel) = .ok exMI ∧
      exMI.getValidIndexes = .ok []) ∧
    isOkE (newIndexCondition exOrm "T" exModel []) = true :=
  ⟨⟨rfl, rfl⟩, rfl⟩

/-- Claim C3 (amended): constructing the index condition factory always
succeeds, whatever the model; when the field-reference list is empty and
the valid-index list of the model is empty, the error
`no index matches the provided model` surfaces at `Generate` instead. -/
theorem newIndexCondition_defers_no_index (orm : Orm) (table : String)
    (model : Obj) (fields : List String) :
    newIndexCondition orm table model fields =
      .ok { orm := orm, tableName := table, model := model, fields := fields } ∧
    (∀ tbl mi, fields = [] →
      lookupA orm.schema table = some tbl →
      NewMapperInfo tbl (.ptrToStruct model) = .ok mi →
      mi.getValidIndexes = .ok [] →
      (IndexCondFactory.mk orm table model fields).Generate =
        .error "no index matches the provided model") := by
  constructor
  · rfl
  · intro tbl mi hf h1 h2 h3
    subst hf
    simp [IndexCondFactory.Generate, Orm.newCondition, h1, h2, h3]

/-- Witness for claim C3: the amended theorem applied to the concrete
all-default model. -/
theorem newIndexCondition_defers_no_index_witness :
    newIndexCondition exOrm "T" exModel [] =
      .ok { orm := exOrm, tableName := "T", model := exModel, fields := [] } ∧
    (IndexCondFactory.mk exOrm "T" exModel []).Generate =
      .error "no index matches the provided model" :=
  ⟨(newIndexCondition_defers_no_index exOrm "T" exModel []).1,
   (newIndexCondition_defers_no_index exOrm "T" exModel []).2 wSchema exMI
     rfl rfl rfl rfl⟩

theorem lookupField_setFieldVal_self (o : List (StructField × Value))
    (fname : String) (f : StructField × Value) (v : Value)
    (h : lookupField o fname = some f) :
    lookupField (setFieldVal o fname v) fname = some (f.1, v) := by
  induction o with
  | nil => simp [lookupField] at h
  | cons p rest ih =>
    rw [lookupField] at h
    by_cases hp : p.1.name = fname
    · rw [if_pos hp] at h
      injection h with h
      subst h
      simp [setFieldVal, lookupField, hp]
    · rw [if_neg hp] at h
      rw [setFieldVal, if_neg hp, lookupField, if_neg hp]
      exact ih h

theorem lookupField_setFieldVal_ne (o : List (StructField × Value))
    (fname g : String) (v : Value) (h : g ≠ fname) :
    lookupField (setFieldVal o fname v) g = lookupField o g := by
  induction o with
  | nil => rfl
  | cons p rest ih =>
    rw [setFieldVal]
    by_cases hp : p.1.name = fname
    · have hg : ¬ p.1.name = g := by
        rw [hp]
        exact fun hh => h hh.symm
      rw [if_pos hp, lookupField, lookupField, if_neg hg, if_neg hg]
    · rw [if_neg hp, lookupField, lookupField]
      by_cases hg : p.1.name = g
      · rw [if_pos hg, if_pos hg]
      · rw [if_neg hg, if_neg hg]
        exact ih

/-- Claim C7: `SetField` fails with the column-not-found error when the
column has no mapping, fails with the incompatible-assignment error when
the incoming value type differs from the field type (within the modelled
native types Go assignability is type identity), leaves the object
untouched in every error case, and on success sets exactly the addressed
field and returns no error. -/
theorem setField_spec (mi : MapperInfo) (col : String) (vty : GoType) (v : Value) :
    (lookupA mi.fields col = none →
      mi.SetField col vty v =
        (mi.obj, some ("column " ++ col ++ " not found in orm info"))) ∧
    (∀ fname f, lookupA mi.fields col = some fname →
      lookupField mi.obj fname = some f →
      ((f.1.type ≠ vty →
        mi.SetField col vty v =
          (mi.obj, some ("column " ++ col ++
            ": native value is not assignable to field " ++ fname))) ∧
       (f.1.type = vty →
        mi.SetField col vty v = (setFieldVal mi.obj fname v, none) ∧
        lookupField (setFieldVal mi.obj fname v) fname = some (f.1, v) ∧
        ∀ g, g ≠ fname →
          lookupField (setFieldVal mi.obj fname v) g = lookupField mi.obj g))) ∧
    (∀ e, (mi.SetField col vty v).2 = some e → (mi.SetField col vty v).1 = mi.obj) := by
  refine ⟨?_, ?_, ?_⟩
  · intro h
    simp [MapperInfo.SetField, h]
  · intro fname f h1 h2
    constructor
    · intro hne
      simp [MapperInfo.SetField, h1, h2, hne]
    · intro heq
      exact ⟨by simp [MapperInfo.SetField, h1, h2, heq],
        lookupField_setFieldVal_self _ _ _ _ h2,
        fun g hg => lookupField_setFieldVal_ne _ _ _ _ hg⟩
  · intro e h
    cases h1 : lookupA mi.fields col with
    | none => simp [MapperInfo.SetField, h1]
    | some fname =>
      cases h2 : lookupField mi.obj fname with
      | none => simp [MapperInfo.SetField, h1, h2]
      | some f =>
        by_cases ht : f.1.type = vty
        · simp [MapperInfo.SetField, h1, h2, ht] at h
        · simp [MapperInfo.SetField, h1, h2, ht]

/-- Witness for claim C7: `SetField` on the concrete mapper info updates
the `Name` field to the new string and no other. -/
theorem setField_spec_witness :
    wMI.SetField "name" (.atom .str) (.atom (.str "b")) =
      (setFieldVal wMI.obj "Name" (.atom (.str "b")), none) ∧
    lookupField (setFieldVal wMI.obj "Name" (.atom (.str "b"))) "Name" =
      some ({ name := "Name", tag := "name", type := .atom .str },
        .atom (.str "b")) :=
  have h := ((setField_spec wMI "name" (.atom .str) (.atom (.str "b"))).2.1 "Name"
    ({ name := "Name", tag := "name", type := .atom .str }, .atom (.str "a"))
    rfl rfl).2 rfl
  ⟨h.1, h.2.1⟩

theorem buildFields_isOk (tbl : TableSchema) (fs : List StructField) :
    ∀ acc, isOkE (buildFields tbl fs acc) = true ↔
      ∀ f ∈ fs, f.tag ≠ "" →
        (tbl.Column f.tag).map NativeType = some f.type := by
  induction fs with
  | nil =>
    intro acc
    simp [buildFields, isOkE]
  | cons f rest ih =>
    intro acc
    rw [buildFields]
    by_cases htag : f.tag = ""
    · rw [if_pos htag, ih]
      constructor
      · intro h g hg hgt
        rcases List.mem_cons.mp hg with h1 | h1
        · subst h1
          exact absurd htag hgt
        · exact h g h1 hgt
      · intro h g hg hgt
        exact h g (List.mem_cons_of_mem _ hg) hgt
    · rw [if_neg htag]
      split
      · next hc =>
        simp only [isOkE, Bool.false_eq_true, false_iff]
        intro h
        have hf := h f (List.mem_cons_self _ _) htag
        rw [hc] at hf
        exact Option.noConfusion hf
      · next column hc =>
        split
        · next hty =>
          rw [ih]
          constructor
          · intro h g hg hgt
            rcases List.mem_cons.mp hg with h1 | h1
            · subst h1
              rw [hc, Option.map_some', hty]
            · exact h g h1 hgt
          · intro h g hg hgt
            exact h g (List.mem_cons_of_mem _ hg) hgt
        · next hty =>
          simp only [isOkE, Bool.false_eq_true, false_iff]
          intro h
          have hf := h f (List.mem_cons_self _ _) htag
          rw [hc, Option.map_some', Option.some.injEq] at hf
          exact hty hf

theorem buildFields_entries (tbl : TableSchema) (fs : List StructField) :
    ∀ acc m, buildFields tbl fs acc = .ok m →
      ∀ pr ∈ m, pr ∈ acc ∨ ∃ f ∈ fs, f.name = pr.2 ∧ f.tag = pr.1 := by
  induction fs with
  | nil =>
    intro acc m h pr hpr
    rw [buildFields] at h
    injection h with h
    subst h
    exact Or.inl hpr
  | cons f rest ih =>
    intro acc m h pr hpr
    rw [buildFields] at h
    by_cases htag : f.tag = ""
    · rw [if_pos htag] at h
      rcases ih acc m h pr hpr with h1 | ⟨g, hg, hgn⟩
      · exact Or.inl h1
      · exact Or.inr ⟨g, List.mem_cons_of_mem _ hg, hgn⟩
    · rw [if_neg htag] at h
      split at h
      · next => exact Except.noConfusion h
      · next column hc =>
        split at h
        · next =>
          rcases ih _ m h pr hpr with h1 | ⟨g, hg, hgn⟩
          · rcases alistInsert_mem acc f.tag f.name pr h1 with h2 | h2
            · subst h2
              exact Or.inr ⟨f, List.mem_cons_self _ _, rfl, rfl⟩
            · exact Or.inl h2
          · exact Or.inr ⟨g, List.mem_cons_of_mem _ hg, hgn⟩
        · next => exact Except.noConfusion h

theorem buildFields_error (tbl : TableSchema) (fs : List StructField) :
    ∀ acc e, buildFields tbl fs acc = .error e →
      ∃ f ∈ fs, f.tag ≠ "" ∧
        ((e = .columnNotExist f.name f.tag ∧ tbl.Column f.tag = none) ∨
         (∃ cs, e = .columnWrongType f.name f.tag ∧ tbl.Column f.tag = some cs ∧
           NativeType cs ≠ f.type)) := by
  induction fs with
  | nil =>
    intro acc e h
    simp [buildFields] at h
  | cons f rest ih =>
    intro acc e h
    rw [buildFields] at h
    by_cases htag : f.tag = ""
    · rw [if_pos htag] at h
      obtain ⟨g, hg, hrest⟩ := ih acc e h
      exact ⟨g, List.mem_cons_of_mem _ hg, hrest⟩
    · rw [if_neg htag] at h
      split at h
      · next hc =>
        injection h with h
        exact ⟨f, List.mem_cons_self _ _, htag, Or.inl ⟨h.symm, hc⟩⟩
      · next column hc =>
        split at h
        · next =>
          obtain ⟨g, hg, hrest⟩ := ih _ e h
          exact ⟨g, List.mem_cons_of_mem _ hg, hrest⟩
        · next hty =>
          injection h with h
          exact ⟨f, List.mem_cons_self _ _, htag, Or.inr ⟨column, h.symm, hc, hty⟩⟩

/-- Claim C5: mapper construction over a pointer-to-struct succeeds iff
every tagged field refers to a schema column whose declared native type
equals the field type; a missing column yields the column-not-exist
error and a type disagreement the wrong-type error, in both cases naming
a tagged field of the object; and every entry of the resulting
column-to-field map is the name of a field tagged with that column, so
untagged fields appear in no mapping. -/
theorem newMapperInfo_characterization (tbl : TableSchema)
    (o : List (StructField × Value)) :
    (isOkE (NewMapperInfo tbl (.ptrToStruct o)) = true ↔
      ∀ p ∈ o, p.1.tag ≠ "" →
        (tbl.Column p.1.tag).map NativeType = some p.1.type) ∧
    (∀ mi, NewMapperInfo tbl (.ptrToStruct o) = .ok mi →
      ∀ col fname, lookupA mi.fields col = some fname →
        ∃ p ∈ o, p.1.name = fname ∧ p.1.tag = col) ∧
    (∀ e, NewMapperInfo tbl (.ptrToStruct o) = .error e →
      ∃ p ∈ o, p.1.tag ≠ "" ∧
        ((e = .columnNotExist p.1.name p.1.tag ∧ tbl.Column p.1.tag = none) ∨
         (∃ cs, e = .columnWrongType p.1.name p.1.tag ∧
           tbl.Column p.1.tag = some cs ∧ NativeType cs ≠ p.1.type))) := by
  have hNM : NewMapperInfo tbl (.ptrToStruct o) = newMapperInfoStruct tbl o := rfl
  refine ⟨?_, ?_, ?_⟩
  · have hok : isOkE (newMapperInfoStruct tbl o) =
        isOkE (buildFields tbl (o.map (fun p => p.1)) []) := by
      rw [newMapperInfoStruct]
      split
      · next e he => rw [he, isOkE, isOkE]
      · next m hm => rw [hm, isOkE, isOkE]
    rw [hNM, hok, buildFields_isOk]
    constructor
    · intro h p hp hpt
      exact h p.1 (List.mem_map_of_mem _ hp) hpt
    · intro h f hf hft
      obtain ⟨p, hp, hpe⟩ := List.mem_map.mp hf
      subst hpe
      exact h p hp hft
  · intro mi hmi col fname hlk
    rw [hNM, newMapperInfoStruct] at hmi
    split at hmi
    · next => exact Except.noConfusion hmi
    · next m hb =>
      injection hmi with hmi
      subst hmi
      have hmem := lookupA_mem m col fname hlk
      rcases buildFields_entries tbl (o.map (fun p => p.1)) [] m hb
          (col, fname) hmem with h1 | ⟨f, hf, hn, ht⟩
      · exact absurd h1 (List.not_mem_nil _)
      · obtain ⟨p, hp, hpe⟩ := List.mem_map.mp hf
        subst hpe
        exact ⟨p, hp, hn, ht⟩
  · intro e hmi
    rw [hNM, newMapperInfoStruct] at hmi
    split at hmi
    · next e2 hb =>
      injection hmi with hmi
      subst hmi
      obtain ⟨f, hf, hrest⟩ := buildFields_error tbl (o.map (fun p => p.1)) [] e2 hb
      obtain ⟨p, hp, hpe⟩ := List.mem_map.mp hf
      subst hpe
      exact ⟨p, hp, hrest⟩
    · next => exact Except.noConfusion hmi

theorem newMapperInfo_characterization_witness :
    isOkE (NewMapperInfo wSchema (.ptrToStruct (wRow "u0" "a"))) = true :=
  (newMapperInfo_characterization wSchema (wRow "u0" "a")).1.mpr (by decide)

theorem exceptMapList_ok_length {α β : Type} (f : α → Except String β) :
    ∀ (l : List α) (r : List β), exceptMapList f l = .ok r → r.length = l.length := by
  intro l
  induction l with
  | nil =>
    intro r h
    rw [exceptMapList] at h
    injection h with h
    subst h
    rfl
  | cons a rest ih =>
    intro r h
    rw [exceptMapList] at h
    split at h
    · next => exact Except.noConfusion h
    · next b hb =>
      split at h
      · next => exact Except.noConfusion h
      · next bs hbs =>
        injection h with h
        subst h
        simp [ih bs hbs]

theorem exceptMapList_ok_get {α β : Type} (f : α → Except String β) :
    ∀ (l : List α) (r : List β), exceptMapList f l = .ok r →
      ∀ (i : Nat) (h1 : i < l.length) (h2 : i < r.length),
        f (l.get ⟨i, h1⟩) = .ok (r.get ⟨i, h2⟩) := by
  intro l
  induction l with
  | nil =>
    intro r h i h1 h2
    exact absurd h1 (Nat.not_lt_zero i)
  | cons a rest ih =>
    intro r h i h1 h2
    rw [exceptMapList] at h
    split at h
    · next => exact Except.noConfusion h
    · next b hb =>
      split at h
      · next => exact Except.noConfusion h
      · next bs hbs =>
        injection h with h
        subst h
        cases i with
        | zero => exact hb
        | succ n =>
          exact ih bs hbs n (Nat.lt_of_succ_lt_succ h1) (Nat.lt_of_succ_lt_succ h2)

/-- Claim C6: whatever the stored conditions and the candidate row,
`Matches` on an explicit condition factory fails with the
local-evaluation error (never a nil error), while `Generate` returns the
stored encoded conditions; a factory built by
`newExplicitConditionFactory` stores one encoded condition per caller
argument, in the caller-supplied order. -/
theorem explicitCondFactory_spec (f : ExplicitCondFactory) :
    (∀ m : Obj, f.Matches m =
      (false, some "explicit conditions cannot be evaluated locally")) ∧
    f.Generate = .ok f.conditions ∧
    (∀ mi table args, newExplicitConditionFactory mi table args = .ok f →
      f.conditions.length = args.length ∧
      ∀ (i : Nat) (h1 : i < args.length) (h2 : i < f.conditions.length),
        resolveCond mi (args.get ⟨i, h1⟩) = .ok (f.conditions.get ⟨i, h2⟩)) := by
  refine ⟨fun m => rfl, rfl, ?_⟩
  intro mi table args h
  rw [newExplicitConditionFactory] at h
  split at h
  · next => exact Except.noConfusion h
  · next cs hcs =>
    injection h with h
    subst h
    constructor
    · exact exceptMapList_ok_length _ args cs hcs
    · intro i h1 h2
      exact exceptMapList_ok_get _ args cs hcs i h1 h2

/-- The concrete explicit condition argument list used as witness input. -/
def exArgs : List CondArg :=
  [{ field := "Name", function := .ne, vty := .atom .str,
     value := .atom (.str "lsp0") }]

/-- The factory `newExplicitConditionFactory` builds from `exArgs`. -/
def exExplicit : ExplicitCondFactory :=
  { tableName := "LSP",
    conditions := [{ column := "name", function := .ne,
                     value := .atom (.str "lsp0") }] }

/-- Witness for claim C6: the concrete explicit factory fails every local
match and generates exactly the one encoded condition of its one
argument. -/
theorem explicitCondFactory_spec_witness :
    exExplicit.Matches [] =
      (false, some "explicit conditions cannot be evaluated locally") ∧
    exExplicit.Generate = .ok exExplicit.conditions ∧
    exExplicit.conditions.length = exArgs.length ∧
    resolveCond wMI (exArgs.get ⟨0, by decide⟩) =
      .ok (exExplicit.conditions.get ⟨0, by decide⟩) :=
  ⟨(explicitCondFactory_spec exExplicit).1 [],
   (explicitCondFactory_spec exExplicit).2.1,
   ((explicitCondFactory_spec exExplicit).2.2 wMI "LSP" exArgs rfl).1,
   ((explicitCondFactory_spec exExplicit).2.2 wMI "LSP" exArgs rfl).2 0
     (by decide) (by decide)⟩

theorem filterMap_all_isSome_length {α β : Type} (f : α → Option β) :
    ∀ l : List α, (∀ a ∈ l, (f a).isSome = true) →
      (l.filterMap f).length = l.length := by
  intro l
  induction l with
  | nil =>
    intro h
    rfl
  | cons a rest ih =>
    intro h
    obtain ⟨b, hb⟩ := Option.isSome_iff_exists.mp (h a (List.mem_cons_self _ _))
    rw [List.filterMap_cons, hb]
    simp [ih (fun x hx => h x (List.mem_cons_of_mem _ hx))]

theorem rowUUIDCond_shape (orm : Orm) (t : String) (r : Obj) (cd : Condition)
    (h : rowUUIDCond orm t r = some cd) :
    cd.column = "_uuid" ∧ cd.function = ConditionFunction.eq := by
  rw [rowUUIDCond] at h
  split at h
  · exact Option.noConfusion h
  · split at h
    · exact Option.noConfusion h
    · split at h
      · exact Option.noConfusion h
      · split at h
        · split at h
          · exact Option.noConfusion h
          · injection h with h
            subst h
            exact ⟨rfl, rfl⟩
        · exact Option.noConfusion h

theorem fieldByColumn_ok_some (mi : MapperInfo) (col : String) (v : Value)
    (h : mi.FieldByColumn col = .ok (some v)) :
    ∃ fname, lookupA mi.fields col = some fname ∧
      ∃ p, lookupField mi.obj fname = some p ∧ p.2 = v := by
  rw [MapperInfo.FieldByColumn] at h
  split at h
  · exact Except.noConfusion h
  · next fname hfn =>
    injection h with h
    obtain ⟨p, hp, hpv⟩ := Option.map_eq_some'.mp h
    exact ⟨fname, hfn, p, hp, hpv⟩

theorem newMapperInfo_ok_parts (tbl : TableSchema) (r : Obj) (mi : MapperInfo)
    (h : NewMapperInfo tbl (.ptrToStruct r) = .ok mi) :
    mi.obj = r ∧ mi.table = tbl := by
  have hs : newMapperInfoStruct tbl r = .ok mi := h
  rw [newMapperInfoStruct] at hs
  split at hs
  · exact Except.noConfusion hs
  · next m hb =>
    injection hs with hs
    rw [← hs]
    exact ⟨rfl, rfl⟩

theorem rowUUIDCond_newCondition (orm : Orm) (t : String) (r : Obj)
    (cd : Condition) (h : rowUUIDCond orm t r = some cd) :
    orm.newCondition t r [] = .ok [cd] := by
  rw [rowUUIDCond] at h
  split at h
  · exact Option.noConfusion h
  · next tbl htbl =>
    split at h
    · exact Option.noConfusion h
    · next cs hcs =>
      split at h
      · exact Option.noConfusion h
      · next mi hmi =>
        split at h
        · next v hv =>
          split at h
          · next => exact Option.noConfusion h
          · next hd =>
            injection h with h
            subst h
            obtain ⟨hobj, htab⟩ := newMapperInfo_ok_parts tbl r mi hmi
            obtain ⟨fname, hfn, p, hp, hpv⟩ := fieldByColumn_ok_some mi "_uuid" v hv
            have hdf : IsDefaultValue cs v = false := by
              cases hbv : IsDefaultValue cs v
              · rfl
              · exact absurd hbv hd
            have hpop : mi.colPopulated "_uuid" = true := by
              simp only [MapperInfo.colPopulated, hfn, htab, hcs, hp, hpv,
                hdf, Bool.not_false]
            have hgvi : mi.getValidIndexes =
                .ok (["_uuid"] :: (mi.table.indexes.filter
                  (fun idx => idx.all (fun col => mi.colPopulated col)))) := by
              rw [MapperInfo.getValidIndexes, getValidIndexesAux_eq,
                List.filter_cons]
              simp [hpop]
            rw [Orm.newCondition]
            simp only [htbl, hmi, hgvi, List.isEmpty_nil, if_true]
            simp only [exceptMapList, hcs, hv]
        · next => exact Option.noConfusion h

theorem predicateGenLoop_eq (c : PredicateCondFactory) :
    ∀ rows : List (String × Obj),
      (∀ p ∈ rows, (rowUUIDCond c.cache.orm c.tableName p.2).isSome = true) →
      predicateGenLoop c rows =
        .ok ((rows.filter (fun p => c.predicate p.2)).filterMap
          (fun p => rowUUIDCond c.cache.orm c.tableName p.2)) := by
  intro rows
  induction rows with
  | nil =>
    intro h
    rfl
  | cons q rest ih =>
    intro h
    obtain ⟨u, elem⟩ := q
    have hq := h (u, elem) (List.mem_cons_self _ _)
    obtain ⟨cd, hcd⟩ := Option.isSome_iff_exists.mp hq
    have hrest := ih (fun x hx => h x (List.mem_cons_of_mem _ hx))
    rw [predicateGenLoop]
    simp only [PredicateCondFactory.Matches]
    by_cases hpred : c.predicate elem
    · rw [rowUUIDCond_newCondition c.cache.orm c.tableName elem cd hcd, hrest]
      simp [List.filter_cons, hpred, List.filterMap_cons, hcd]
    · rw [hrest]
      simp [List.filter_cons, hpred]

/-- Claim C1: for a predicate condition factory, `Generate` fails with
not-found when the table is unknown to the cache; when the table has a
cache entry whose rows all carry a populated `_uuid` column, it returns
one `_uuid` equality condition per cached row satisfying the predicate,
so the result length equals the number of matching rows and the empty
cache entry yields the empty list with no error. -/
theorem predicate_generate_fanout (c : PredicateCondFactory) :
    (c.cache.Table c.tableName = none → c.Generate = .error errNotFound) ∧
    (∀ rc, c.cache.Table c.tableName = some rc →
      (∀ p ∈ rc.rows, (rowUUIDCond c.cache.orm c.tableName p.2).isSome = true) →
      ∃ conds, c.Generate = .ok conds ∧
        conds = (rc.rows.filter (fun p => c.predicate p.2)).filterMap
          (fun p => rowUUIDCond c.cache.orm c.tableName p.2) ∧
        conds.length = (rc.rows.filter (fun p => c.predicate p.2)).length ∧
        ∀ cd ∈ conds, cd.column = "_uuid" ∧
          cd.function = ConditionFunction.eq) := by
  constructor
  · intro h
    rw [PredicateCondFactory.Generate]
    simp only [h]
  · intro rc hrc hwf
    refine ⟨_, ?_, rfl, ?_, ?_⟩
    · rw [PredicateCondFactory.Generate]
      simp only [hrc]
      exact predicateGenLoop_eq c rc.rows hwf
    · exact filterMap_all_isSome_length _ _
        (fun p hp => hwf p (List.mem_of_mem_filter hp))
    · intro cd hcd
      obtain ⟨p, hp, hpc⟩ := List.mem_filterMap.mp hcd
      exact rowUUIDCond_shape _ _ _ _ hpc

/-- Witness for claim C1: over the concrete two-row cache the factory
whose predicate selects the row named `a` generates exactly the one
`_uuid` equality condition of that row. -/
theorem predicate_generate_fanout_witness :
    wFactory.Generate =
      .ok [⟨"_uuid", ConditionFunction.eq, .atom (.uuid "u0")⟩] := by
  obtain ⟨conds, hgen, hconds, hlen, hshape⟩ :=
    (predicate_generate_fanout wFactory).2 wRC rfl (by decide)
  rw [hgen, hconds]
  rfl

end LibOVSDB
